import Mathlib

/-!
Verification of the outbound-call resilience layer of the whatsapp-service
repository: the circuit breaker (`src/services/utils/circuitBreaker.js`), the
retry/timeout wrapper (`fetchWithRetry`), the idempotency guard
(`src/services/idempotency-service/idempotencyService.js`) and the message
chunker (`src/services/utils/messageSplitter.js`).

The JavaScript is shallowly embedded: `Date.now()` readings become explicit
`Nat` timestamps threaded through each operation, the protected async call of
the circuit breaker becomes an explicit `CallOutcome` argument (its value when
it resolves, its error when it rejects), and the fact that the protected call
was or was not invoked is visible in the result constructor
(`ExecResult.shortCircuit` vs `ExecResult.returned`/`ExecResult.threw`).
-/

namespace WhatsappService

/-- The three circuit states of `CIRCUIT_STATES` in circuitBreaker.js. -/
inductive CircuitState where
  | CLOSED
  | OPEN
  | HALF_OPEN
deriving DecidableEq, Repr

/-- Circuit breaker configuration (`DEFAULT_CONFIG` fields in
circuitBreaker.js).  The spec calls `timeoutMs` "openDurationMs" and
`resetTimeoutMs` "halfOpenDurationMs"; we keep the source names. -/
structure CBConfig where
  failureThreshold : Nat
  successThreshold : Nat
  timeoutMs : Nat
  resetTimeoutMs : Nat
deriving Repr

/-- `DEFAULT_CONFIG` of circuitBreaker.js. -/
def DEFAULT_CONFIG : CBConfig :=
  { failureThreshold := 5, successThreshold := 2,
    timeoutMs := 60000, resetTimeoutMs := 30000 }

/-- The mutable closure state of one breaker instance
(`state`, `failureCount`, `successCount`, `lastFailureTime`,
`lastStateChangeTime` in `createCircuitBreaker`). -/
structure CBState where
  state : CircuitState
  failureCount : Nat
  successCount : Nat
  lastFailureTime : Option Nat
  lastStateChangeTime : Nat
deriving DecidableEq, Repr

/-- Initial state of a freshly created breaker (created at time `t0`). -/
def initialCBState (t0 : Nat) : CBState :=
  { state := .CLOSED, failureCount := 0, successCount := 0,
    lastFailureTime := none, lastStateChangeTime := t0 }

/-- Outcome of the protected async function `fn`: it either resolves with a
value or rejects with an error. -/
inductive CallOutcome (α ε : Type) where
  | ok (v : α)
  | fail (e : ε)
deriving DecidableEq, Repr

/-- Observable result of one `execute(fn, fallback)` invocation.
`shortCircuit` means `fn` was NOT invoked and the (awaited) fallback value was
returned; `returned` means `fn` was invoked and its value returned; `threw`
means `fn` was invoked, rejected, and the original error was re-thrown. -/
inductive ExecResult (α ε : Type) where
  | shortCircuit (v : α)
  | returned (v : α)
  | threw (e : ε)
deriving DecidableEq, Repr

/-- One invocation of `execute(fn, fallback)` from circuitBreaker.js at time
`now`, where the protected call `fn` would produce `call` if invoked and the
fallback (a value, or a zero-arg function whose awaited value we take)
produces `fallback`.  Returns the updated closure state and the result. -/
def execute {α ε : Type} (cfg : CBConfig) (s0 : CBState) (now : Nat)
    (call : CallOutcome α ε) (fallback : α) : CBState × ExecResult α ε :=
  -- `if (state === CIRCUIT_STATES.OPEN)` block.  The JS early-returns the
  -- fallback when `timeInOpenState < timeoutMs`; otherwise (still OPEN) it
  -- transitions to HALF_OPEN and falls through.
  if s0.state = CircuitState.OPEN ∧
      (now : Int) - (s0.lastStateChangeTime : Int) < (cfg.timeoutMs : Int) then
    (s0, .shortCircuit fallback)
  else
    let s1 := if s0.state = CircuitState.OPEN then
        { s0 with state := .HALF_OPEN, successCount := 0, lastStateChangeTime := now }
      else s0
    -- `if (state === CIRCUIT_STATES.HALF_OPEN)` timeout block
    if s1.state = CircuitState.HALF_OPEN ∧
        (now : Int) - (s1.lastStateChangeTime : Int) ≥ (cfg.resetTimeoutMs : Int) then
      ({ s1 with state := .OPEN, lastStateChangeTime := now }, .shortCircuit fallback)
    else
      -- `try { const result = await fn(); ... } catch (error) { ... }`
      match call with
      | .ok v =>
        if s1.state = CircuitState.HALF_OPEN then
          let sc := s1.successCount + 1
          if sc ≥ cfg.successThreshold then
            ({ s1 with state := .CLOSED, failureCount := 0, successCount := 0,
                       lastStateChangeTime := now }, .returned v)
          else ({ s1 with successCount := sc }, .returned v)
        else if s1.state = CircuitState.CLOSED then
          -- `failureCount = Math.max(0, failureCount - 1)` = Nat subtraction
          ({ s1 with failureCount := s1.failureCount - 1 }, .returned v)
        else (s1, .returned v)
      | .fail e =>
        let s2 := { s1 with failureCount := s1.failureCount + 1,
                            lastFailureTime := some now }
        if s2.state = CircuitState.CLOSED ∧ s2.failureCount ≥ cfg.failureThreshold then
          ({ s2 with state := .OPEN, lastStateChangeTime := now }, .threw e)
        else if s2.state = CircuitState.HALF_OPEN then
          ({ s2 with state := .OPEN, lastStateChangeTime := now,
                     successCount := 0 }, .threw e)
        else (s2, .threw e)

/-- Fold a sequence of `execute` invocations (timestamp, call outcome) over
the breaker state, discarding each invocation's result. -/
def runCalls {α ε : Type} (cfg : CBConfig) (fallback : α) :
    CBState → List (Nat × CallOutcome α ε) → CBState
  | s, [] => s
  | s, (t, c) :: rest => runCalls cfg fallback (execute cfg s t c fallback).1 rest

/-- A failure-execute step starting from CLOSED or OPEN lands in CLOSED or
OPEN, and it ends CLOSED only if it started CLOSED and the incremented
failure count is still below the threshold. -/
theorem fail_step_closed_open {α ε : Type} (cfg : CBConfig) (s : CBState) (t : Nat)
    (e : ε) (fb : α) (hs : s.state = .CLOSED ∨ s.state = .OPEN) :
    ((execute cfg s t (CallOutcome.fail e) fb).1.state = .CLOSED ∨
      (execute cfg s t (CallOutcome.fail e) fb).1.state = .OPEN) ∧
    ((execute cfg s t (CallOutcome.fail e) fb).1.state = .CLOSED →
      s.state = .CLOSED ∧
      (execute cfg s t (CallOutcome.fail e) fb).1.failureCount = s.failureCount + 1 ∧
      s.failureCount + 1 < cfg.failureThreshold) := by
  rcases hs with hs | hs
  · -- starting CLOSED: the call is executed and fails
    by_cases hth : cfg.failureThreshold ≤ s.failureCount + 1
    · simp [execute, hs, hth]
    · simp [execute, hs, hth]
      omega
  · -- starting OPEN: either short-circuit (stays OPEN), or go HALF_OPEN and
    -- then either HALF_OPEN-timeout back to OPEN or executed failure to OPEN
    by_cases htime : (t : Int) - (s.lastStateChangeTime : Int) < (cfg.timeoutMs : Int)
    · simp [execute, hs, htime]
    · simp [execute, hs, htime]
      split <;> simp

/-- Iterating failure-executes keeps the breaker in CLOSED ∨ OPEN; ending
CLOSED means every step started and stayed CLOSED, in which case the failure
count grew by the number of steps and (if there was at least one step) is
still below the threshold. -/
theorem runCalls_fail_closed_open {α ε : Type} (cfg : CBConfig) (fb : α) (e : ε) :
    ∀ (ts : List Nat) (s : CBState), s.state = .CLOSED ∨ s.state = .OPEN →
    ((runCalls cfg fb s (ts.map fun t => (t, CallOutcome.fail e))).state = .CLOSED ∨
      (runCalls cfg fb s (ts.map fun t => (t, CallOutcome.fail e))).state = .OPEN) ∧
    ((runCalls cfg fb s (ts.map fun t => (t, CallOutcome.fail e))).state = .CLOSED →
      s.state = .CLOSED ∧
      (runCalls cfg fb s (ts.map fun t => (t, CallOutcome.fail e))).failureCount =
        s.failureCount + ts.length ∧
      (ts ≠ [] →
        (runCalls cfg fb s (ts.map fun t => (t, CallOutcome.fail e))).failureCount <
          cfg.failureThreshold)) := by
  intro ts
  induction ts with
  | nil =>
    intro s hs
    refine ⟨by simpa [runCalls] using hs, fun hcl => ?_⟩
    simp only [List.map_nil, runCalls] at hcl
    exact ⟨hcl, by simp [runCalls], by simp⟩
  | cons t ts ih =>
    intro s hs
    have hstep := fail_step_closed_open cfg s t e fb hs
    have hrec := ih (execute cfg s t (CallOutcome.fail e) fb).1 hstep.1
    simp only [List.map_cons, runCalls] at hrec ⊢
    refine ⟨hrec.1, fun hcl => ?_⟩
    have h2 := hrec.2 hcl
    have hsc := hstep.2 h2.1
    refine ⟨hsc.1, by simp only [List.length_cons]; omega, fun _ => ?_⟩
    rcases ts with _ | ⟨t', ts'⟩
    · simp only [List.map_nil, runCalls] at h2 ⊢
      omega
    · exact h2.2.2 (by simp)

/-- C1: every sequence of `failureThreshold` consecutive failures while the
breaker is CLOSED transitions it to OPEN; and whenever the state is OPEN and
less than `timeoutMs` (the spec's `openDurationMs`) has elapsed since
`lastStateChangeTime`, `execute(call, fallback)` returns the fallback value
without invoking the call (result constructor `shortCircuit`, state
unchanged), so the underlying call count does not increase. -/
theorem circuit_failures_open_and_open_short_circuits :
    (∀ (α ε : Type) (cfg : CBConfig) (s : CBState) (ts : List Nat) (e : ε) (fb : α),
      s.state = .CLOSED → 1 ≤ cfg.failureThreshold → ts.length = cfg.failureThreshold →
      (runCalls cfg fb s (ts.map fun t => (t, CallOutcome.fail e))).state = .OPEN) ∧
    (∀ (α ε : Type) (cfg : CBConfig) (s : CBState) (now : Nat)
        (call : CallOutcome α ε) (fb : α),
      s.state = .OPEN →
      (now : Int) - (s.lastStateChangeTime : Int) < (cfg.timeoutMs : Int) →
      execute cfg s now call fb = (s, .shortCircuit fb)) := by
  constructor
  · intro α ε cfg s ts e fb hcl hth hlen
    have h := runCalls_fail_closed_open cfg fb e ts s (Or.inl hcl)
    rcases h.1 with hfin | hfin
    · exfalso
      have h2 := h.2 hfin
      have hne : ts ≠ [] := by
        intro hnil; rw [hnil] at hlen; simp at hlen; omega
      have := h2.2.2 hne
      omega
    · exact hfin
  · intro α ε cfg s now call fb hs htime
    simp [execute, hs, htime]

/-- Witness for C1 at concrete inputs: five consecutive failures open the
default breaker, and an OPEN breaker 5ms into its 60000ms window
short-circuits to the fallback. -/
theorem circuit_failures_open_and_open_short_circuits_witness :
    (runCalls DEFAULT_CONFIG (7 : Nat) (initialCBState 0)
        ([1, 2, 3, 4, 5].map fun t => (t, CallOutcome.fail "boom"))).state =
      CircuitState.OPEN ∧
    execute DEFAULT_CONFIG
        { state := .OPEN, failureCount := 5, successCount := 0,
          lastFailureTime := some 5, lastStateChangeTime := 5 } 10
        (CallOutcome.ok 3 : CallOutcome Nat String) (7 : Nat) =
      ({ state := .OPEN, failureCount := 5, successCount := 0,
         lastFailureTime := some 5, lastStateChangeTime := 5 },
       ExecResult.shortCircuit 7) :=
  ⟨circuit_failures_open_and_open_short_circuits.1 Nat String DEFAULT_CONFIG
      (initialCBState 0) [1, 2, 3, 4, 5] "boom" 7 rfl (by decide) rfl,
   circuit_failures_open_and_open_short_circuits.2 Nat String DEFAULT_CONFIG
      _ 10 (CallOutcome.ok 3 : CallOutcome Nat String) 7 rfl (by decide)⟩

/-- C5: whenever the circuit breaker actually invokes the protected call and
the call fails, `execute` increments `failureCount`, records
`lastFailureTime`, moves to OPEN when applicable (it stays CLOSED only below
the threshold) and re-throws the original error; a successful executed call
returns the call's value; the fallback value is only ever produced by the
short-circuited path (constructor `shortCircuit`). -/
theorem executed_failure_rethrows :
    ∀ (α ε : Type) (cfg : CBConfig) (s : CBState) (now : Nat) (e : ε) (v : α) (fb : α),
      ((execute cfg s now (CallOutcome.fail e) fb).2 = .shortCircuit fb ∨
        ((execute cfg s now (CallOutcome.fail e) fb).2 = .threw e ∧
          (execute cfg s now (CallOutcome.fail e) fb).1.failureCount = s.failureCount + 1 ∧
          (execute cfg s now (CallOutcome.fail e) fb).1.lastFailureTime = some now ∧
          ((execute cfg s now (CallOutcome.fail e) fb).1.state = .CLOSED →
            s.state = .CLOSED ∧ s.failureCount + 1 < cfg.failureThreshold))) ∧
      ((execute cfg s now (CallOutcome.ok v : CallOutcome α ε) fb).2 = .shortCircuit fb ∨
        (execute cfg s now (CallOutcome.ok v : CallOutcome α ε) fb).2 = .returned v) := by
  intro α ε cfg s now e v fb
  constructor
  · cases hstate : s.state
    · by_cases hth : cfg.failureThreshold ≤ s.failureCount + 1
      · simp [execute, hstate, hth]
      · simp [execute, hstate, hth]
        omega
    · by_cases htime : (now : Int) - (s.lastStateChangeTime : Int) < (cfg.timeoutMs : Int)
      · simp [execute, hstate, htime]
      · simp [execute, hstate, htime]
        split <;> simp
    · by_cases hr : (now : Int) - (s.lastStateChangeTime : Int) ≥ (cfg.resetTimeoutMs : Int)
      · simp [execute, hstate, hr]
      · simp [execute, hstate, hr]
  · cases hstate : s.state
    · simp [execute, hstate]
    · by_cases htime : (now : Int) - (s.lastStateChangeTime : Int) < (cfg.timeoutMs : Int)
      · simp [execute, hstate, htime]
      · simp [execute, hstate, htime]
        split
        · simp
        · split <;> simp
    · by_cases hr : (now : Int) - (s.lastStateChangeTime : Int) ≥ (cfg.resetTimeoutMs : Int)
      · simp [execute, hstate, hr]
      · simp [execute, hstate, hr]
        split <;> simp

/-- C9: invoking `execute` while the breaker is HALF_OPEN after at least
`resetTimeoutMs` (the spec's `halfOpenDurationMs`) in HALF_OPEN transitions
the breaker to OPEN and returns the fallback without invoking the protected
call (the triggering call is short-circuited, not attempted). -/
theorem halfopen_timeout_short_circuits {α ε : Type} (cfg : CBConfig) (s : CBState)
    (now : Nat) (call : CallOutcome α ε) (fb : α)
    (hs : s.state = .HALF_OPEN)
    (ht : (now : Int) - (s.lastStateChangeTime : Int) ≥ (cfg.resetTimeoutMs : Int)) :
    execute cfg s now call fb =
      ({ s with state := .OPEN, lastStateChangeTime := now }, .shortCircuit fb) := by
  simp [execute, hs, ht]

/-- Witness for C9: a breaker HALF_OPEN since time 100, probed at time 200
with `resetTimeoutMs = 50`, goes OPEN and short-circuits to the fallback. -/
theorem halfopen_timeout_short_circuits_witness :
    execute { failureThreshold := 5, successThreshold := 2,
              timeoutMs := 60000, resetTimeoutMs := 50 }
        { state := .HALF_OPEN, failureCount := 2, successCount := 1,
          lastFailureTime := some 0, lastStateChangeTime := 100 } 200
        (CallOutcome.fail "x") (9 : Nat) =
      ({ state := .OPEN, failureCount := 2, successCount := 1,
         lastFailureTime := some 0, lastStateChangeTime := 200 },
       ExecResult.shortCircuit 9) :=
  halfopen_timeout_short_circuits _ _ 200 (CallOutcome.fail "x") 9 rfl (by decide)

/-- Successful executed calls keep a CLOSED breaker with zero failures
CLOSED with zero failures (`Math.max(0, 0 - 1) = 0`). -/
theorem runCalls_ok_closed_zero {α ε : Type} (cfg : CBConfig) (fb v : α) :
    ∀ (ts : List Nat) (s : CBState), s.state = .CLOSED → s.failureCount = 0 →
    (runCalls cfg fb s (ts.map fun t => (t, (CallOutcome.ok v : CallOutcome α ε)))).state
        = .CLOSED ∧
    (runCalls cfg fb s
        (ts.map fun t => (t, (CallOutcome.ok v : CallOutcome α ε)))).failureCount = 0 := by
  intro ts
  induction ts with
  | nil => intro s hs hf; simp [runCalls, hs, hf]
  | cons t ts ih =>
    intro s hs hf
    have hstep : execute cfg s t (CallOutcome.ok v : CallOutcome α ε) fb =
        ({ s with failureCount := s.failureCount - 1 }, .returned v) := by
      simp [execute, hs]
    simp only [List.map_cons, runCalls, hstep]
    exact ih _ hs (by simp [hf])

/-- In HALF_OPEN, with every probe time inside the `resetTimeoutMs` window,
enough consecutive successes to reach `successThreshold` close the breaker
and reset `failureCount` to 0. -/
theorem runCalls_ok_halfopen_closes {α ε : Type} (cfg : CBConfig) (fb v : α) :
    ∀ (ts : List Nat) (s : CBState), s.state = .HALF_OPEN →
    s.successCount < cfg.successThreshold →
    cfg.successThreshold ≤ s.successCount + ts.length →
    (∀ t ∈ ts, (t : Int) - (s.lastStateChangeTime : Int) < (cfg.resetTimeoutMs : Int)) →
    (runCalls cfg fb s (ts.map fun t => (t, (CallOutcome.ok v : CallOutcome α ε)))).state
        = .CLOSED ∧
    (runCalls cfg fb s
        (ts.map fun t => (t, (CallOutcome.ok v : CallOutcome α ε)))).failureCount = 0 := by
  intro ts
  induction ts with
  | nil => intro s _ hlt hge _; simp at hge; omega
  | cons t ts ih =>
    intro s hs hlt hge htimes
    have ht : ¬ ((t : Int) - (s.lastStateChangeTime : Int) ≥ (cfg.resetTimeoutMs : Int)) :=
      not_le.mpr (htimes t (by simp))
    by_cases hth : cfg.successThreshold ≤ s.successCount + 1
    · have hstep : execute cfg s t (CallOutcome.ok v : CallOutcome α ε) fb =
          ({ s with state := .CLOSED, failureCount := 0, successCount := 0,
                    lastStateChangeTime := t }, .returned v) := by
        simp [execute, hs, ht, hth]
      simp only [List.map_cons, runCalls, hstep]
      exact runCalls_ok_closed_zero cfg fb v ts _ rfl rfl
    · have hstep : execute cfg s t (CallOutcome.ok v : CallOutcome α ε) fb =
          ({ s with successCount := s.successCount + 1 }, .returned v) := by
        simp [execute, hs, ht, hth]
      simp only [List.map_cons, runCalls, hstep]
      refine ih _ hs (by simp; omega) (by simp; simp at hge; omega) ?_
      intro u hu
      exact htimes u (by simp [hu])

/-- C6: after the breaker has been OPEN for at least `timeoutMs` (the spec's
`openDurationMs`), the next `execute` transitions to HALF_OPEN with
`successCount` reset and invokes the protected call (provided the half-open
window `resetTimeoutMs` is positive, as in every real configuration); and
`successThreshold` consecutive successful calls in HALF_OPEN, each inside the
`resetTimeoutMs` window, return the breaker to CLOSED with `failureCount`
reset to 0. -/
theorem open_elapsed_probes_and_successes_close :
    (∀ (α ε : Type) (cfg : CBConfig) (s : CBState) (now : Nat) (e : ε) (v fb : α),
      s.state = .OPEN →
      (now : Int) - (s.lastStateChangeTime : Int) ≥ (cfg.timeoutMs : Int) →
      0 < cfg.resetTimeoutMs →
      (execute cfg s now (CallOutcome.fail e) fb).2 = .threw e ∧
      (execute cfg s now (CallOutcome.ok v : CallOutcome α ε) fb).2 = .returned v ∧
      (execute cfg s now (CallOutcome.fail e) fb).1.successCount = 0 ∧
      (2 ≤ cfg.successThreshold →
        (execute cfg s now (CallOutcome.ok v : CallOutcome α ε) fb).1.state = .HALF_OPEN ∧
        (execute cfg s now (CallOutcome.ok v : CallOutcome α ε) fb).1.successCount = 1)) ∧
    (∀ (α ε : Type) (cfg : CBConfig) (s : CBState) (ts : List Nat) (v fb : α),
      s.state = .HALF_OPEN → s.successCount = 0 →
      1 ≤ cfg.successThreshold → ts.length = cfg.successThreshold →
      (∀ t ∈ ts, (t : Int) - (s.lastStateChangeTime : Int) < (cfg.resetTimeoutMs : Int)) →
      (runCalls cfg fb s (ts.map fun t => (t, (CallOutcome.ok v : CallOutcome α ε)))).state
          = .CLOSED ∧
      (runCalls cfg fb s
          (ts.map fun t => (t, (CallOutcome.ok v : CallOutcome α ε)))).failureCount = 0) := by
  constructor
  · intro α ε cfg s now e v fb hs helapsed hreset
    have hnlt : ¬ ((now : Int) - (s.lastStateChangeTime : Int) < (cfg.timeoutMs : Int)) :=
      not_lt.mpr helapsed
    have hr0 : ¬ (cfg.resetTimeoutMs = 0) := by omega
    refine ⟨?_, ?_, ?_, ?_⟩
    · simp [execute, hs, hnlt, hr0]
    · simp [execute, hs, hnlt, hr0]
      split <;> simp
    · simp [execute, hs, hnlt, hr0]
    · intro hth
      have hth1 : ¬ (cfg.successThreshold ≤ 0 + 1) := by omega
      simp [execute, hs, hnlt, hr0, hth1]
  · intro α ε cfg s ts v fb hs hsc hth hlen htimes
    exact runCalls_ok_halfopen_closes cfg fb v ts s hs (by omega) (by omega) htimes

/-- Witness for C6: a breaker OPEN since time 0 probed at time 60000 with the
default 60000ms window executes the call, and two in-window successes from
fresh HALF_OPEN close the default breaker with `failureCount = 0`. -/
theorem open_elapsed_probes_and_successes_close_witness :
    ((execute DEFAULT_CONFIG
        { state := .OPEN, failureCount := 5, successCount := 0,
          lastFailureTime := some 0, lastStateChangeTime := 0 } 60000
        (CallOutcome.fail "x") (7 : Nat)).2 = ExecResult.threw "x" ∧
      (execute DEFAULT_CONFIG
        { state := .OPEN, failureCount := 5, successCount := 0,
          lastFailureTime := some 0, lastStateChangeTime := 0 } 60000
        (CallOutcome.ok 3 : CallOutcome Nat String) 7).2 = ExecResult.returned 3) ∧
    ((runCalls DEFAULT_CONFIG (7 : Nat)
        { state := .HALF_OPEN, failureCount := 3, successCount := 0,
          lastFailureTime := some 0, lastStateChangeTime := 100 }
        ([110, 120].map fun t =>
          (t, (CallOutcome.ok 3 : CallOutcome Nat String)))).state = CircuitState.CLOSED ∧
      (runCalls DEFAULT_CONFIG (7 : Nat)
        { state := .HALF_OPEN, failureCount := 3, successCount := 0,
          lastFailureTime := some 0, lastStateChangeTime := 100 }
        ([110, 120].map fun t =>
          (t, (CallOutcome.ok 3 : CallOutcome Nat String)))).failureCount = 0) := by
  have h1 := (open_elapsed_probes_and_successes_close.1 Nat String DEFAULT_CONFIG
    { state := .OPEN, failureCount := 5, successCount := 0,
      lastFailureTime := some 0, lastStateChangeTime := 0 } 60000 "x" 3 7
    rfl (by decide) (by decide))
  have h2 := (open_elapsed_probes_and_successes_close.2 Nat String DEFAULT_CONFIG
    { state := .HALF_OPEN, failureCount := 3, successCount := 0,
      lastFailureTime := some 0, lastStateChangeTime := 100 } [110, 120] 3 7
    rfl rfl (by decide) rfl (by decide))
  exact ⟨⟨h1.1, h1.2.1⟩, h2⟩

/-! ### fetchWithRetry (src/unnamed/part_002)

The network is embedded as a function `outcomes : Nat → AttemptOutcome`
giving, for each attempt index, what that `fetch` attempt would produce: a
`Response` or a thrown error.  `sleep` and the exponential backoff delays do
not affect control flow and are elided; the attempt counter in the result
records how many underlying `fetch` calls were made. -/

/-- A fetch `Response`: we model the `status` code; `ok` is the WHATWG fetch
predicate `200 ≤ status ≤ 299` used by `response.ok`. -/
structure Response where
  status : Nat
deriving DecidableEq, Repr

/-- `response.ok`. -/
def Response.ok (r : Response) : Bool :=
  decide (200 ≤ r.status) && decide (r.status ≤ 299)

/-- A thrown fetch error, with its `name` and (possibly absent) `code`
properties, which are all the default `shouldRetry` inspects. -/
structure JsError where
  name : String
  code : Option String
deriving DecidableEq, Repr

/-- What one `fetch` attempt yields. -/
inductive AttemptOutcome where
  | resp (r : Response)
  | err (e : JsError)
deriving DecidableEq, Repr

/-- The default `shouldRetry` of `fetchWithRetry`:
`error.name === 'AbortError' || error.code === 'ECONNREFUSED' ||
error.code === 'ETIMEDOUT'` for errors, `status >= 500 && status < 600` for
responses, `false` otherwise. -/
def defaultShouldRetry (error : Option JsError) (response : Option Response) : Bool :=
  match error with
  | some e =>
      (e.name == "AbortError") || (e.code == some "ECONNREFUSED") ||
        (e.code == some "ETIMEDOUT")
  | none =>
    match response with
    | some r => decide (500 ≤ r.status) && decide (r.status < 600)
    | none => false

/-- Final observable outcome of `fetchWithRetry`: the returned response or
the thrown error. -/
inductive FetchFinal where
  | returned (r : Response)
  | thrown (e : JsError)
deriving DecidableEq, Repr

/-- `new Error('Request failed after all retries')` of the unreachable
bottom branch. -/
def requestFailedError : JsError :=
  { name := "Error", code := none }

/-- The bottom of `fetchWithRetry` after the loop:
`if (lastResponse) { return lastResponse; } throw lastError || new Error(...)`. -/
def fetchExit (lastResponse : Option Response) (lastError : Option JsError)
    (attempts : Nat) : FetchFinal × Nat :=
  match lastResponse with
  | some r => (.returned r, attempts)
  | none =>
    match lastError with
    | some e => (.thrown e, attempts)
    | none => (.thrown requestFailedError, attempts)

/-- The `for (let attempt = 0; attempt <= maxRetries; attempt++)` loop of
`fetchWithRetry`, carrying `lastResponse` and `lastError`, together with the
number of `fetch` attempts performed so far.  A non-ok response that
`shouldRetry` accepts is recorded and the loop continues (or falls off the
end on the last attempt); a thrown error is retried while attempts remain —
via the inner catch when retryable, via the outer catch otherwise — and is
re-thrown on the last attempt.  `fuel` only bounds the recursion; every call
keeps the invariant `maxRetries + 1 - attempt ≤ fuel`, under which the
exhaustion branch coincides with the loop-exit test `attempt > maxRetries`
and the embedding follows the JS loop exactly. -/
def fetchGo (shouldRetry : Option JsError → Option Response → Bool) (maxRetries : Nat)
    (outcomes : Nat → AttemptOutcome) :
    Nat → Nat → Option Response → Option JsError → FetchFinal × Nat
  | 0, attempt, lastResponse, lastError => fetchExit lastResponse lastError attempt
  | fuel + 1, attempt, lastResponse, lastError =>
    if attempt ≤ maxRetries then
      match outcomes attempt with
      | .resp r =>
        if r.ok || !shouldRetry none (some r) then (.returned r, attempt + 1)
        else fetchGo shouldRetry maxRetries outcomes fuel (attempt + 1) (some r) lastError
      | .err e =>
        if shouldRetry (some e) none && decide (attempt < maxRetries) then
          fetchGo shouldRetry maxRetries outcomes fuel (attempt + 1) lastResponse (some e)
        else if maxRetries ≤ attempt then (.thrown e, attempt + 1)
        else -- thrown, caught by the outer catch, retried after the backoff sleep
          fetchGo shouldRetry maxRetries outcomes fuel (attempt + 1) lastResponse (some e)
    else fetchExit lastResponse lastError attempt

/-- `fetchWithRetry(url, options, config)`: run the attempt loop from
attempt 0 with no recorded response or error.  Returns the final outcome and
the number of underlying `fetch` attempts made. -/
def fetchWithRetry (shouldRetry : Option JsError → Option Response → Bool)
    (maxRetries : Nat) (outcomes : Nat → AttemptOutcome) : FetchFinal × Nat :=
  fetchGo shouldRetry maxRetries outcomes (maxRetries + 1) 0 none none

/-- `fetchExit` reports exactly the attempt count it is given. -/
theorem fetchExit_count (lastR : Option Response) (lastE : Option JsError) (n : Nat) :
    (fetchExit lastR lastE n).2 = n := by
  cases lastR <;> cases lastE <;> simp [fetchExit]

/-- Once the loop counter passes `maxRetries`, `fetchGo` exits with
`fetchExit` whatever the fuel. -/
theorem fetchGo_exit (sr : Option JsError → Option Response → Bool) (mr : Nat)
    (outcomes : Nat → AttemptOutcome) :
    ∀ (fuel attempt : Nat) (lastR : Option Response) (lastE : Option JsError),
      ¬ attempt ≤ mr →
      fetchGo sr mr outcomes fuel attempt lastR lastE = fetchExit lastR lastE attempt := by
  intro fuel
  cases fuel <;> intro attempt lastR lastE h <;> simp [fetchGo, h]

/-- The loop performs at least one more attempt when entered with
`attempt ≤ maxRetries`, and never more than `maxRetries + 1` in total. -/
theorem fetchGo_count_bounds (sr : Option JsError → Option Response → Bool) (mr : Nat)
    (outcomes : Nat → AttemptOutcome) :
    ∀ (fuel attempt : Nat) (lastR : Option Response) (lastE : Option JsError),
      mr + 1 - attempt ≤ fuel → attempt ≤ mr →
      attempt + 1 ≤ (fetchGo sr mr outcomes fuel attempt lastR lastE).2 ∧
      (fetchGo sr mr outcomes fuel attempt lastR lastE).2 ≤ mr + 1 := by
  intro fuel
  induction fuel with
  | zero => intro attempt lastR lastE hfuel hle; omega
  | succ fuel ih =>
    intro attempt lastR lastE hfuel hle
    have hnext : ∀ (lastR' : Option Response) (lastE' : Option JsError),
        attempt + 1 ≤ (fetchGo sr mr outcomes fuel (attempt + 1) lastR' lastE').2 ∧
          (fetchGo sr mr outcomes fuel (attempt + 1) lastR' lastE').2 ≤ mr + 1 := by
      intro lastR' lastE'
      by_cases h1 : attempt + 1 ≤ mr
      · have := ih (attempt + 1) lastR' lastE' (by omega) h1
        exact ⟨by omega, this.2⟩
      · rw [fetchGo_exit sr mr outcomes fuel _ _ _ h1, fetchExit_count]
        omega
    simp only [fetchGo, hle, if_true]
    match hout : outcomes attempt with
    | .resp r =>
      by_cases hret : (r.ok || !sr none (some r)) = true
      · simp [hret]; omega
      · simp [hret]
        exact ⟨(hnext (some r) lastE).1, (hnext (some r) lastE).2⟩
    | .err e =>
      by_cases hretry : (sr (some e) none && decide (attempt < mr)) = true
      · simp [hretry]
        exact ⟨(hnext lastR (some e)).1, (hnext lastR (some e)).2⟩
      · simp [hretry]
        by_cases hlast : mr ≤ attempt
        · simp [hlast]; omega
        · simp [hlast]
          exact ⟨(hnext lastR (some e)).1, (hnext lastR (some e)).2⟩

/-- When the loop uses all `maxRetries + 1` attempts, the outcome of the
final attempt (index `maxRetries`) determines the result: a response is
returned (directly, or as the recorded `lastResponse` after the loop), an
error is thrown. -/
theorem fetchGo_exhausted (sr : Option JsError → Option Response → Bool) (mr : Nat)
    (outcomes : Nat → AttemptOutcome) :
    ∀ (fuel attempt : Nat) (lastR : Option Response) (lastE : Option JsError),
      mr + 1 - attempt ≤ fuel → attempt ≤ mr →
      (fetchGo sr mr outcomes fuel attempt lastR lastE).2 = mr + 1 →
      (∀ r, outcomes mr = .resp r →
        (fetchGo sr mr outcomes fuel attempt lastR lastE).1 = .returned r) ∧
      (∀ e, outcomes mr = .err e →
        (fetchGo sr mr outcomes fuel attempt lastR lastE).1 = .thrown e) := by
  intro fuel
  induction fuel with
  | zero => intro attempt lastR lastE hfuel hle _; omega
  | succ fuel ih =>
    intro attempt lastR lastE hfuel hle hcount
    simp only [fetchGo, hle, if_true] at hcount ⊢
    match hout : outcomes attempt with
    | .resp r =>
      simp only [hout] at hcount ⊢
      by_cases hret : (r.ok || !sr none (some r)) = true
      · simp only [hret, if_true] at hcount ⊢
        have hmr : attempt = mr := by simpa using hcount
        subst hmr
        constructor
        · intro r' hr'; rw [hout] at hr'; cases hr'; rfl
        · intro e' he'; rw [hout] at he'; cases he'
      · simp only [hret, if_false] at hcount ⊢
        by_cases h1 : attempt + 1 ≤ mr
        · exact ih (attempt + 1) (some r) lastE (by omega) h1 hcount
        · have hmr : attempt = mr := by omega
          rw [fetchGo_exit sr mr outcomes fuel _ _ _ h1] at hcount ⊢
          subst hmr
          constructor
          · intro r' hr'; rw [hout] at hr'; cases hr'; simp [fetchExit]
          · intro e' he'; rw [hout] at he'; cases he'
    | .err e =>
      simp only [hout] at hcount ⊢
      by_cases hretry : (sr (some e) none && decide (attempt < mr)) = true
      · simp only [hretry, if_true] at hcount ⊢
        have hlt : attempt < mr := by
          have h2 := hretry
          simp only [Bool.and_eq_true, decide_eq_true_eq] at h2
          exact h2.2
        exact ih (attempt + 1) lastR (some e) (by omega) (by omega) hcount
      · simp only [hretry, if_false] at hcount ⊢
        by_cases hlast : mr ≤ attempt
        · simp only [hlast, if_true] at hcount ⊢
          have hmr : attempt = mr := by omega
          subst hmr
          constructor
          · intro r' hr'; rw [hout] at hr'; cases hr'
          · intro e' he'; rw [hout] at he'; cases he'; rfl
        · simp only [hlast, if_false] at hcount ⊢
          exact ih (attempt + 1) lastR (some e) (by omega) (by omega) hcount

/-- C3 counterexample: the claim says the default `shouldRetry` classifies
429 responses as retryable, but the source predicate
`response.status >= 500 && response.status < 600` rejects 429. -/
theorem default_should_retry_429_cex :
    defaultShouldRetry none (some { status := 429 }) = false := rfl

/-- C3 (amended): the default `shouldRetry` classifies AbortError
(timeout/abort cancellation), ECONNREFUSED and ETIMEDOUT errors, and 5xx
responses as retryable and everything else — including 429 responses — as
not retryable; for a request whose first attempt yields a 400 response,
`fetchWithRetry` makes exactly one call attempt and returns the 400 response
as-is. -/
theorem default_should_retry_classification :
    (∀ e : JsError, defaultShouldRetry (some e) none = true ↔
      (e.name = "AbortError" ∨ e.code = some "ECONNREFUSED" ∨
        e.code = some "ETIMEDOUT")) ∧
    (∀ r : Response, defaultShouldRetry none (some r) = true ↔
      (500 ≤ r.status ∧ r.status < 600)) ∧
    defaultShouldRetry none none = false ∧
    (∀ (mr : Nat) (outcomes : Nat → AttemptOutcome) (r : Response),
      outcomes 0 = .resp r → r.status = 400 →
      fetchWithRetry defaultShouldRetry mr outcomes = (.returned r, 1)) := by
  refine ⟨?_, ?_, rfl, ?_⟩
  · intro e
    simp [defaultShouldRetry]
    tauto
  · intro r
    simp [defaultShouldRetry]
  · intro mr outcomes r hout hst
    have hok : r.ok = false := by simp [Response.ok, hst]
    have hsr : defaultShouldRetry none (some r) = false := by
      simp [defaultShouldRetry, hst]
    simp [fetchWithRetry, fetchGo, hout, hok, hsr]

/-- Witness for C3 (amended) at concrete inputs: an ECONNREFUSED error is
retryable, a 503 response is retryable, a 404 response is not, and a request
whose attempts all yield 400 returns the 400 after exactly one attempt. -/
theorem default_should_retry_classification_witness :
    defaultShouldRetry (some { name := "Error", code := some "ECONNREFUSED" }) none = true ∧
    defaultShouldRetry none (some { status := 503 }) = true ∧
    defaultShouldRetry none (some { status := 404 }) = false ∧
    fetchWithRetry defaultShouldRetry 3 (fun _ => .resp { status := 400 }) =
      (.returned { status := 400 }, 1) := by
  refine ⟨?_, ?_, ?_, ?_⟩
  · exact (default_should_retry_classification.1 _).mpr (by simp)
  · exact (default_should_retry_classification.2.1 _).mpr (by decide)
  · have h := default_should_retry_classification.2.1 { status := 404 }
    simp only [show ¬ (500 ≤ 404 ∧ 404 < 600) by omega, iff_false] at h
    simp [Bool.not_eq_true] at h
    exact h
  · exact default_should_retry_classification.2.2.2 3 _ { status := 400 } rfl rfl

/-- C7 counterexample: with `maxRetries = 1`, a retryable 500 response on
attempt 0 followed by a retryable AbortError on the final attempt makes the
exhausted call THROW the error, even though a last non-ok response exists —
contradicting "returns the last non-ok response if one exists, otherwise
raises the last transport error". -/
def mixedOutcomes : Nat → AttemptOutcome
  | 0 => .resp { status := 500 }
  | _ => .err { name := "AbortError", code := none }

theorem fetch_last_response_precedence_cex :
    fetchWithRetry defaultShouldRetry 1 mixedOutcomes =
      (.thrown { name := "AbortError", code := none }, 2) ∧
    mixedOutcomes 0 = .resp { status := 500 } :=
  ⟨rfl, rfl⟩

/-- C7 (amended): `fetchWithRetry` performs at least 1 and at most
`maxRetries + 1` underlying call attempts, with `maxRetries = 0` meaning
exactly one attempt and no retry; when all attempts are exhausted the
FINAL attempt's outcome decides the result: its non-ok response is returned,
its transport error is thrown (even if an earlier attempt produced a non-ok
response). -/
theorem fetch_attempt_bounds_and_exhaustion :
    (∀ (sr : Option JsError → Option Response → Bool) (mr : Nat)
        (outcomes : Nat → AttemptOutcome),
      1 ≤ (fetchWithRetry sr mr outcomes).2 ∧ (fetchWithRetry sr mr outcomes).2 ≤ mr + 1) ∧
    (∀ (sr : Option JsError → Option Response → Bool) (outcomes : Nat → AttemptOutcome),
      (fetchWithRetry sr 0 outcomes).2 = 1) ∧
    (∀ (sr : Option JsError → Option Response → Bool) (mr : Nat)
        (outcomes : Nat → AttemptOutcome),
      (fetchWithRetry sr mr outcomes).2 = mr + 1 →
      (∀ r, outcomes mr = .resp r → (fetchWithRetry sr mr outcomes).1 = .returned r) ∧
      (∀ e, outcomes mr = .err e → (fetchWithRetry sr mr outcomes).1 = .thrown e)) := by
  refine ⟨?_, ?_, ?_⟩
  · intro sr mr outcomes
    have h := fetchGo_count_bounds sr mr outcomes (mr + 1) 0 none none (by omega) (by omega)
    simp only [fetchWithRetry]
    exact ⟨h.1, h.2⟩
  · intro sr outcomes
    have h := fetchGo_count_bounds sr 0 outcomes (0 + 1) 0 none none (by omega) (by omega)
    simp only [fetchWithRetry]
    omega
  · intro sr mr outcomes hcount
    simp only [fetchWithRetry] at hcount ⊢
    exact fetchGo_exhausted sr mr outcomes (mr + 1) 0 none none (by omega) (by omega) hcount

/-- Witness for C7 (amended): attempts that always abort with `maxRetries = 1`
use both attempts and throw the final error; a single always-400 request with
`maxRetries = 0` makes exactly one attempt. -/
theorem fetch_attempt_bounds_and_exhaustion_witness :
    (1 ≤ (fetchWithRetry defaultShouldRetry 1
        (fun _ => .err { name := "AbortError", code := none })).2 ∧
      (fetchWithRetry defaultShouldRetry 1
        (fun _ => .err { name := "AbortError", code := none })).2 ≤ 2) ∧
    (fetchWithRetry defaultShouldRetry 0 (fun _ => .resp { status := 400 })).2 = 1 ∧
    (fetchWithRetry defaultShouldRetry 1
        (fun _ => .err { name := "AbortError", code := none })).1 =
      .thrown { name := "AbortError", code := none } := by
  refine ⟨fetch_attempt_bounds_and_exhaustion.1 defaultShouldRetry 1 _,
    fetch_attempt_bounds_and_exhaustion.2.1 defaultShouldRetry _, ?_⟩
  exact (fetch_attempt_bounds_and_exhaustion.2.2 defaultShouldRetry 1
      (fun _ => .err { name := "AbortError", code := none }) rfl).2
    { name := "AbortError", code := none } rfl

/-! ### Idempotency service
(src/services/idempotency-service/idempotencyService.js)

We embed the in-memory fallback path (`isRedisAvailable()` false), whose
store is a `Map` from message id to `{ timestamp, processed }`; the Redis
path has the same logical structure with the TTL enforced by `setex`.
The processor passed to `processWithIdempotency` is embedded as a
`CallOutcome`: its result if it resolves, its error if it throws. -/

/-- `IDEMPOTENCY_TTL_SECONDS = 24 * 60 * 60` (24 hours). -/
def IDEMPOTENCY_TTL_SECONDS : Nat := 24 * 60 * 60

/-- An entry of the in-memory store: `{ timestamp, processed: true }`. -/
structure MemEntry where
  timestamp : Nat
  processed : Bool
deriving DecidableEq, Repr

/-- The in-memory `Map` (association list keyed by message id). -/
abbrev IdemStore : Type := List (String × MemEntry)

/-- `inMemoryStore.has(messageId)`. -/
def storeHas (store : IdemStore) (k : String) : Bool :=
  store.any (fun p => p.1 == k)

/-- `inMemoryStore.set(messageId, v)`: replace the binding if the key is
present, else add it. -/
def storeSet (store : IdemStore) (k : String) (v : MemEntry) : IdemStore :=
  if storeHas store k then
    store.map (fun p => if p.1 == k then (k, v) else p)
  else store ++ [(k, v)]

/-- `cleanupInMemoryStore`, run every hour: delete every entry whose age
`now - timestamp` exceeds `IDEMPOTENCY_TTL_SECONDS * 1000`. -/
def cleanupInMemoryStore (store : IdemStore) (now : Nat) : IdemStore :=
  store.filter (fun p =>
    !(decide ((now : Int) - (p.2.timestamp : Int) >
        ((IDEMPOTENCY_TTL_SECONDS * 1000 : Nat) : Int))))

/-- `isDuplicate(messageId)` on the in-memory path: `!messageId` (empty
string) gives false, else membership in the store. -/
def isDuplicate (store : IdemStore) (messageId : String) : Bool :=
  if messageId = "" then false else storeHas store messageId

/-- `markAsProcessed(messageId)` at time `now` on the in-memory path:
a no-op for `!messageId`, else store `{ timestamp: now, processed: true }`. -/
def markAsProcessed (store : IdemStore) (messageId : String) (now : Nat) : IdemStore :=
  if messageId = "" then store
  else storeSet store messageId { timestamp := now, processed := true }

/-- Observable result of `processWithIdempotency`: `dup` is
`{ isDuplicate: true }` with the processor NOT invoked; `done r` is
`{ isDuplicate: false, result: r }`; `threw e` means the processor was
invoked, threw `e`, and the error was re-thrown (the catch block keeps the
id marked). -/
inductive IdemResult (α ε : Type) where
  | dup
  | done (r : α)
  | threw (e : ε)
deriving DecidableEq, Repr

/-- `processWithIdempotency(messageId, processor)` at time `now`: check for
a duplicate, mark as processed FIRST (write-before-work), then run the
processor; on processor error the store is left marked and the error
propagates. -/
def processWithIdempotency {α ε : Type} (store : IdemStore) (now : Nat)
    (messageId : String) (proc : CallOutcome α ε) : IdemStore × IdemResult α ε :=
  if isDuplicate store messageId then (store, .dup)
  else
    let store' := markAsProcessed store messageId now
    match proc with
    | .ok r => (store', .done r)
    | .fail e => (store', .threw e)

/-- Apply a sequence of hourly cleanup runs at the given times. -/
def applyCleanups (store : IdemStore) (times : List Nat) : IdemStore :=
  times.foldl (fun st u => cleanupInMemoryStore st u) store

/-- After `storeSet store k v`, the key `k` is present and every binding of
`k` carries exactly the value `v`. -/
theorem storeSet_spec (store : IdemStore) (k : String) (v : MemEntry) :
    storeHas (storeSet store k v) k = true ∧
    ∀ p ∈ storeSet store k v, p.1 = k → p.2 = v := by
  by_cases h : storeHas store k = true
  · unfold storeSet
    rw [if_pos h]
    constructor
    · unfold storeHas at h ⊢
      simp only [List.any_eq_true] at h ⊢
      obtain ⟨p, hp, hpk⟩ := h
      refine ⟨(k, v), List.mem_map.mpr ⟨p, hp, by simp [hpk]⟩, by simp⟩
    · intro p hp hpk
      obtain ⟨q, hq, hqe⟩ := List.mem_map.mp hp
      by_cases hk : (q.1 == k) = true
      · rw [if_pos hk] at hqe; rw [← hqe]
      · rw [if_neg hk] at hqe
        subst hqe
        simp [hpk] at hk
  · unfold storeSet
    rw [if_neg h]
    constructor
    · unfold storeHas
      simp
    · intro p hp hpk
      rcases List.mem_append.mp hp with hmem | hmem
      · exfalso
        apply h
        unfold storeHas
        simp only [List.any_eq_true]
        exact ⟨p, hmem, by simp [hpk]⟩
      · simp at hmem
        rw [hmem]

/-- A cleanup run at a time still inside the TTL window of the binding's
timestamp keeps the key present and keeps the binding invariant. -/
theorem cleanup_keeps (store : IdemStore) (k : String) (v : MemEntry) (u : Nat)
    (hin : (u : Int) - (v.timestamp : Int) ≤ ((IDEMPOTENCY_TTL_SECONDS * 1000 : Nat) : Int))
    (hhas : storeHas store k = true)
    (hval : ∀ p ∈ store, p.1 = k → p.2 = v) :
    storeHas (cleanupInMemoryStore store u) k = true ∧
    ∀ p ∈ cleanupInMemoryStore store u, p.1 = k → p.2 = v := by
  constructor
  · unfold storeHas at hhas ⊢
    simp only [List.any_eq_true] at hhas ⊢
    obtain ⟨p, hp, hpk⟩ := hhas
    have hpv : p.2 = v := hval p hp (by simpa using hpk)
    refine ⟨p, ?_, hpk⟩
    unfold cleanupInMemoryStore
    rw [List.mem_filter]
    refine ⟨hp, ?_⟩
    simp only [Bool.not_eq_true', decide_eq_false_iff_not, not_lt]
    rw [hpv]
    exact hin
  · intro p hp hpk
    exact hval p (List.mem_filter.mp hp).1 hpk

/-- Iterated cleanups inside the TTL window preserve the marked id. -/
theorem applyCleanups_keeps (k : String) (v : MemEntry) :
    ∀ (times : List Nat) (store : IdemStore),
    (∀ u ∈ times,
      (u : Int) - (v.timestamp : Int) ≤ ((IDEMPOTENCY_TTL_SECONDS * 1000 : Nat) : Int)) →
    storeHas store k = true →
    (∀ p ∈ store, p.1 = k → p.2 = v) →
    storeHas (applyCleanups store times) k = true ∧
    ∀ p ∈ applyCleanups store times, p.1 = k → p.2 = v := by
  intro times
  induction times with
  | nil => intro store _ hhas hval; exact ⟨hhas, hval⟩
  | cons u us ih =>
    intro store htimes hhas hval
    have hstep := cleanup_keeps store k v u (htimes u (by simp)) hhas hval
    simp only [applyCleanups, List.foldl_cons]
    exact ih (cleanupInMemoryStore store u) (fun w hw => htimes w (by simp [hw]))
      hstep.1 hstep.2

/-- C2: for a non-empty, not-yet-seen message id, the first
`processWithIdempotency` call marks the id before running the processor and
invokes the processor exactly once (returning its result, or re-throwing its
error with the id still marked); any second call for the same id within the
24-hour TTL window — with any number of hourly cleanup runs in between —
reports the duplicate flag with the processor not invoked and the store
unchanged. -/
theorem process_with_idempotency_once {α ε : Type}
    (store : IdemStore) (messageId : String) (t1 t2 : Nat)
    (proc1 proc2 : CallOutcome α ε) (cleanupTimes : List Nat)
    (hid : messageId ≠ "")
    (hnew : isDuplicate store messageId = false)
    (hcleanups : ∀ u ∈ cleanupTimes, u ≤ t2)
    (hwindow : (t2 : Int) - (t1 : Int) ≤ ((IDEMPOTENCY_TTL_SECONDS * 1000 : Nat) : Int)) :
    (processWithIdempotency store t1 messageId proc1).2 =
      (match proc1 with
       | .ok r => IdemResult.done r
       | .fail e => IdemResult.threw e) ∧
    (processWithIdempotency
        (applyCleanups (processWithIdempotency store t1 messageId proc1).1 cleanupTimes)
        t2 messageId proc2 =
      (applyCleanups (processWithIdempotency store t1 messageId proc1).1 cleanupTimes,
        IdemResult.dup)) := by
  have hfirst : (processWithIdempotency store t1 messageId proc1).1 =
      storeSet store messageId { timestamp := t1, processed := true } ∧
      (processWithIdempotency store t1 messageId proc1).2 =
        (match proc1 with
         | .ok r => IdemResult.done r
         | .fail e => IdemResult.threw e) := by
    unfold processWithIdempotency
    rw [hnew]
    unfold markAsProcessed
    rw [if_neg hid]
    cases proc1 <;> simp
  refine ⟨hfirst.2, ?_⟩
  have hset := storeSet_spec store messageId { timestamp := t1, processed := true }
  have hkept := applyCleanups_keeps messageId { timestamp := t1, processed := true }
    cleanupTimes (processWithIdempotency store t1 messageId proc1).1
    (fun u hu => by
      have h1 : (u : Int) ≤ (t2 : Int) := by exact_mod_cast hcleanups u hu
      simp only []
      omega)
    (by rw [hfirst.1]; exact hset.1)
    (by rw [hfirst.1]; exact hset.2)
  have hdup : isDuplicate
      (applyCleanups (processWithIdempotency store t1 messageId proc1).1 cleanupTimes)
      messageId = true := by
    unfold isDuplicate
    rw [if_neg hid]
    exact hkept.1
  set S2 := applyCleanups (processWithIdempotency store t1 messageId proc1).1 cleanupTimes
    with hS2
  unfold processWithIdempotency
  rw [hdup]
  simp

/-- Witness for C2 at concrete inputs: id "wamid.1" first processed at time
1000 (processor succeeds with 42), one cleanup at time 3601000, second
delivery at time 7200000 — inside the 24h window — is reported duplicate. -/
theorem process_with_idempotency_once_witness :
    (processWithIdempotency ([] : IdemStore) 1000 "wamid.1"
        (CallOutcome.ok 42 : CallOutcome Nat String)).2 = IdemResult.done 42 ∧
    (processWithIdempotency
        (applyCleanups
          (processWithIdempotency ([] : IdemStore) 1000 "wamid.1"
            (CallOutcome.ok 42 : CallOutcome Nat String)).1 [3601000])
        7200000 "wamid.1" (CallOutcome.ok 43 : CallOutcome Nat String) =
      (applyCleanups
          (processWithIdempotency ([] : IdemStore) 1000 "wamid.1"
            (CallOutcome.ok 42 : CallOutcome Nat String)).1 [3601000],
        IdemResult.dup)) :=
  process_with_idempotency_once ([] : IdemStore) "wamid.1" 1000 7200000
    (CallOutcome.ok 42) (CallOutcome.ok 43) [3601000]
    (by decide) rfl (by intro u hu; simp at hu; omega) (by decide)

/-! ### Message splitter (src/services/utils/messageSplitter.js)

Strings are embedded as `List Char`; `none` embeds `null`/`undefined`/a
non-string argument.  `substring(a, b)` on the indices used by the source is
`(l.drop a).take (b - a)`; `trim()` drops JS whitespace from both ends; the
regex `[.!?]\s+|\n\n+` is embedded as a leftmost-match search where, at
each position, the first alternative is tried before the second and each
quantifier is greedy — exactly the JS `RegExp.prototype.match` behaviour for
this pattern. -/

/-- `WHATSAPP_MESSAGE_MAX_LENGTH = 4096`. -/
def WHATSAPP_MESSAGE_MAX_LENGTH : Nat := 4096

/-- JS whitespace: the WhiteSpace and LineTerminator sets used both by `\s`
and by `String.prototype.trim` (tab, LF, VT, FF, CR, space, NBSP, Ogham
space, the U+2000..200A range, LS, PS, NNBSP, MMSP, ideographic space,
BOM). -/
def isJsWhitespace (c : Char) : Bool :=
  c == ' ' || c == '\t' || c == '\n' || c == '\x0b' || c == '\x0c' || c == '\r' ||
  c == '\u00A0' || c == '\u1680' ||
  (decide (0x2000 ≤ c.toNat) && decide (c.toNat ≤ 0x200A)) ||
  c == '\u2028' || c == '\u2029' || c == '\u202F' || c == '\u205F' ||
  c == '\u3000' || c == '\uFEFF'

/-- `String.prototype.trim()`: drop leading and trailing JS whitespace. -/
def jsTrim (l : List Char) : List Char :=
  ((l.dropWhile isJsWhitespace).reverse.dropWhile isJsWhitespace).reverse

/-- Length of the run of `\s` characters at the head (the greedy `\s+`). -/
def wsRun : List Char → Nat
  | [] => 0
  | c :: rest => if isJsWhitespace c then wsRun rest + 1 else 0

/-- Length of the run of newline characters at the head (the greedy `\n+`). -/
def nlRun : List Char → Nat
  | [] => 0
  | c :: rest => if c = '\n' then nlRun rest + 1 else 0

/-- Length of the match of `[.!?]\s+|\n\n+` anchored at the head, if any
(first alternative tried first, quantifiers greedy). -/
def sentenceMatchAt (l : List Char) : Option Nat :=
  match l with
  | [] => none
  | c :: rest =>
    if (c = '.' ∨ c = '!' ∨ c = '?') ∧ 1 ≤ wsRun rest then some (1 + wsRun rest)
    else if c = '\n' ∧ 1 ≤ nlRun rest then some (1 + nlRun rest)
    else none

/-- `searchArea.match(/[.!?]\s+|\n\n+/)`: position and length of the
leftmost match. -/
def findSentenceMatch : List Char → Option (Nat × Nat)
  | [] => none
  | c :: rest =>
    match sentenceMatchAt (c :: rest) with
    | some len => some (0, len)
    | none => (findSentenceMatch rest).map (fun p => (p.1 + 1, p.2))

/-- `chunk.lastIndexOf('\n')`: `-1` when absent. -/
def lastIndexOfNewline : List Char → Int
  | [] => -1
  | c :: rest =>
    if lastIndexOfNewline rest ≥ 0 then lastIndexOfNewline rest + 1
    else if c = '\n' then 0 else -1

/-- One loop iteration's split index, for `remaining.length > maxLength`:
a sentence boundary inside the 200-character lookback window, else a line
break later than 80% of `maxLength`, else `maxLength`.  The JS threshold
`lineBreakIndex > maxLength * 0.8` compares an integer against the double
product `maxLength * 0.8`, which decides exactly like the rational
comparison `10 * lineBreakIndex > 8 * maxLength` for every realistic
`maxLength` (below 2^50), so the rational comparison is embedded. -/
def splitIndexFor (maxLength : Nat) (remaining : List Char) : Nat :=
  let chunk := remaining.take maxLength
  let lookbackWindow := min 200 chunk.length
  let searchArea := chunk.drop (chunk.length - lookbackWindow)
  match findSentenceMatch searchArea with
  | some (idx, mlen) => chunk.length - lookbackWindow + idx + mlen
  | none =>
    let lineBreakIndex := lastIndexOfNewline chunk
    if 10 * lineBreakIndex > 8 * (maxLength : Int) then (lineBreakIndex + 1).toNat
    else maxLength

/-- The `while (remaining.length > 0)` loop of `splitMessage`.  The fuel
only bounds the recursion: any `fuel ≥ remaining.length` makes the
exhaustion branch unreachable when `maxLength ≥ 1`
(`splitLoop_fuel_irrelevant` below). -/
def splitLoop (maxLength : Nat) : Nat → List Char → List (List Char) → List (List Char)
  | 0, _, chunks => chunks.reverse
  | fuel + 1, remaining, chunks =>
    if remaining.length = 0 then chunks.reverse
    else if remaining.length ≤ maxLength then (remaining :: chunks).reverse
    else
      let splitIndex := splitIndexFor maxLength remaining
      let chunkText := jsTrim (remaining.take splitIndex)
      splitLoop maxLength fuel (jsTrim (remaining.drop splitIndex)) (chunkText :: chunks)

/-- `splitMessage(message, maxLength)`.  `none` is a `null`/`undefined`/
non-string argument; the empty string is likewise rejected by the
`!message` guard. -/
def splitMessage (message : Option (List Char)) (maxLength : Nat) : List (List Char) :=
  match message with
  | none => []
  | some msg =>
    if msg.length = 0 then []
    else if msg.length ≤ maxLength then [msg]
    else splitLoop maxLength msg.length msg []

/-- The `[Part ${i}/${N}]\n\n` prefix added by `splitMessageWithIndicators`. -/
def partMarker (i n : Nat) : List Char :=
  "[Part ".toList ++ Nat.toDigits 10 i ++ "/".toList ++ Nat.toDigits 10 n
    ++ "]".toList ++ "\n\n".toList

/-- `splitMessageWithIndicators(message)`: split at the provider maximum and
prefix each chunk with a page marker when there are at least two chunks. -/
def splitMessageWithIndicators (message : Option (List Char)) : List (List Char) :=
  let chunks := splitMessage message WHATSAPP_MESSAGE_MAX_LENGTH
  if chunks.length ≤ 1 then chunks
  else chunks.mapIdx (fun index chunk => partMarker (index + 1) chunks.length ++ chunk)

theorem wsRun_le_length (l : List Char) : wsRun l ≤ l.length := by
  induction l with
  | nil => simp [wsRun]
  | cons c rest ih =>
    simp only [wsRun, List.length_cons]
    split <;> omega

theorem nlRun_le_length (l : List Char) : nlRun l ≤ l.length := by
  induction l with
  | nil => simp [nlRun]
  | cons c rest ih =>
    simp only [nlRun, List.length_cons]
    split <;> omega

theorem sentenceMatchAt_bounds (l : List Char) (len : Nat)
    (h : sentenceMatchAt l = some len) : 2 ≤ len ∧ len ≤ l.length := by
  match l with
  | [] => simp [sentenceMatchAt] at h
  | c :: rest =>
    simp only [sentenceMatchAt] at h
    split at h
    · rename_i hcond
      cases h
      have := wsRun_le_length rest
      simp only [List.length_cons]
      omega
    · split at h
      · rename_i hcond
        cases h
        have := nlRun_le_length rest
        simp only [List.length_cons]
        omega
      · cases h

theorem findSentenceMatch_bounds (l : List Char) (i len : Nat)
    (h : findSentenceMatch l = some (i, len)) : 2 ≤ len ∧ i + len ≤ l.length := by
  induction l generalizing i len with
  | nil => simp [findSentenceMatch] at h
  | cons c rest ih =>
    simp only [findSentenceMatch] at h
    split at h
    · rename_i len0 hm
      cases h
      have hb := sentenceMatchAt_bounds _ _ hm
      exact ⟨hb.1, by omega⟩
    · rw [Option.map_eq_some'] at h
      obtain ⟨⟨i0, len0⟩, hrec, heq⟩ := h
      cases heq
      have hb := ih i0 len0 hrec
      simp only [List.length_cons]
      exact ⟨hb.1, by omega⟩

theorem lastIndexOfNewline_bounds (l : List Char) :
    -1 ≤ lastIndexOfNewline l ∧ lastIndexOfNewline l < l.length := by
  induction l with
  | nil => simp [lastIndexOfNewline]
  | cons c rest ih =>
    by_cases h1 : lastIndexOfNewline rest ≥ 0
    · simp only [lastIndexOfNewline, List.length_cons, if_pos h1]
      omega
    · simp only [lastIndexOfNewline, List.length_cons, if_neg h1]
      by_cases h2 : c = '\n'
      · simp only [if_pos h2]
        omega
      · simp only [if_neg h2]
        omega

theorem jsTrim_length_le (l : List Char) : (jsTrim l).length ≤ l.length := by
  unfold jsTrim
  calc ((l.dropWhile isJsWhitespace).reverse.dropWhile isJsWhitespace).reverse.length
      = ((l.dropWhile isJsWhitespace).reverse.dropWhile isJsWhitespace).length := by
        rw [List.length_reverse]
    _ ≤ (l.dropWhile isJsWhitespace).reverse.length :=
        (List.dropWhile_sublist _).length_le
    _ = (l.dropWhile isJsWhitespace).length := List.length_reverse _
    _ ≤ l.length := (List.dropWhile_sublist _).length_le

/-- The split index never exceeds `maxLength` (for a long-enough remainder)
and is positive whenever `maxLength` is. -/
theorem splitIndexFor_bounds (maxLength : Nat) (remaining : List Char)
    (hlong : maxLength ≤ remaining.length) :
    (1 ≤ maxLength → 1 ≤ splitIndexFor maxLength remaining) ∧
    splitIndexFor maxLength remaining ≤ maxLength := by
  have hchunk : (remaining.take maxLength).length = maxLength := by
    simp [List.length_take]; omega
  unfold splitIndexFor
  dsimp only
  split
  · rename_i idx mlen hm
    have hb := findSentenceMatch_bounds _ _ _ hm
    have hsa : ((remaining.take maxLength).drop
        ((remaining.take maxLength).length - min 200 (remaining.take maxLength).length)).length
        = min 200 (remaining.take maxLength).length := by
      rw [List.length_drop]
      omega
    rw [hsa] at hb
    rw [hchunk] at hb ⊢
    exact ⟨fun _ => by omega, by omega⟩
  · have hlb := lastIndexOfNewline_bounds (remaining.take maxLength)
    rw [hchunk] at hlb
    split
    · rename_i hgt
      refine ⟨fun _ => by omega, ?_⟩
      have h1 : lastIndexOfNewline (remaining.take maxLength) + 1 ≤ (maxLength : Int) := by
        omega
      omega
    · exact ⟨fun h => h, le_refl _⟩

/-- Every chunk produced by the split loop (given every accumulated chunk is
bounded) is at most `maxLength` long. -/
theorem splitLoop_chunks_le (maxLength : Nat) :
    ∀ (fuel : Nat) (remaining : List Char) (acc : List (List Char)),
      (∀ c ∈ acc, c.length ≤ maxLength) →
      ∀ c ∈ splitLoop maxLength fuel remaining acc, c.length ≤ maxLength := by
  intro fuel
  induction fuel with
  | zero =>
    intro remaining acc hacc c hc
    simp only [splitLoop, List.mem_reverse] at hc
    exact hacc c hc
  | succ fuel ih =>
    intro remaining acc hacc c hc
    simp only [splitLoop] at hc
    by_cases h0 : remaining.length = 0
    · rw [if_pos h0] at hc
      simp only [List.mem_reverse] at hc
      exact hacc c hc
    · rw [if_neg h0] at hc
      by_cases hle : remaining.length ≤ maxLength
      · rw [if_pos hle] at hc
        simp only [List.mem_reverse, List.mem_cons] at hc
        rcases hc with rfl | hc
        · exact hle
        · exact hacc c hc
      · rw [if_neg hle] at hc
        refine ih _ _ ?_ c hc
        intro d hd
        rcases List.mem_cons.mp hd with rfl | hd
        · have hidx := (splitIndexFor_bounds maxLength remaining (by omega)).2
          calc (jsTrim (remaining.take (splitIndexFor maxLength remaining))).length
              ≤ (remaining.take (splitIndexFor maxLength remaining)).length :=
                jsTrim_length_le _
            _ ≤ splitIndexFor maxLength remaining := by
                rw [List.length_take]; omega
            _ ≤ maxLength := hidx
        · exact hacc d hd

/-- Every chunk returned by `splitMessage` is at most `maxLength` long. -/
theorem splitMessage_chunks_le (msg : Option (List Char)) (maxLength : Nat) :
    ∀ c ∈ splitMessage msg maxLength, c.length ≤ maxLength := by
  intro c hc
  match msg with
  | none => simp [splitMessage] at hc
  | some m =>
    simp only [splitMessage] at hc
    by_cases h0 : m.length = 0
    · rw [if_pos h0] at hc; simp at hc
    · rw [if_neg h0] at hc
      by_cases hle : m.length ≤ maxLength
      · rw [if_pos hle] at hc
        simp only [List.mem_singleton] at hc
        subst hc
        exact hle
      · rw [if_neg hle] at hc
        exact splitLoop_chunks_le maxLength m.length m [] (by simp) c hc

/-- C10: `splitMessage` returns the empty sequence — not `[message]` — when
the message is the empty string, `null`, `undefined` or not a string, and
`splitMessageWithIndicators` does likewise; the one-element result
`[message]` is produced exactly for non-empty strings of length at most
`maxLength`. -/
theorem split_message_degenerate_and_singleton :
    (∀ M : Nat, splitMessage none M = []) ∧
    (∀ M : Nat, splitMessage (some []) M = []) ∧
    splitMessageWithIndicators none = [] ∧
    splitMessageWithIndicators (some []) = [] ∧
    (∀ (msg : List Char) (M : Nat),
      splitMessage (some msg) M = [msg] ↔ (msg ≠ [] ∧ msg.length ≤ M)) := by
  refine ⟨fun M => rfl, fun M => rfl, rfl, rfl, ?_⟩
  intro msg M
  constructor
  · intro h
    constructor
    · intro hnil
      subst hnil
      simp [splitMessage] at h
    · have hmem : msg ∈ splitMessage (some msg) M := by rw [h]; simp
      exact splitMessage_chunks_le (some msg) M msg hmem
  · rintro ⟨hne, hle⟩
    simp only [splitMessage]
    rw [if_neg (fun h => hne (List.length_eq_zero.mp h)), if_pos hle]

/-- C4 (amended): every piece returned by `splitMessage(text, M)` has length
at most `M`; every element of the outbound sequence of
`splitMessageWithIndicators` is such a bounded piece (at most 4096), either
bare (single-chunk case) or prefixed by its `[Part i/N]` marker — whose
extra length can push the marked chunk past 4096. -/
theorem chunk_length_bound_and_marker :
    (∀ (msg : Option (List Char)) (M : Nat) (c : List Char),
      c ∈ splitMessage msg M → c.length ≤ M) ∧
    (∀ (msg : Option (List Char)) (c : List Char),
      c ∈ splitMessageWithIndicators msg →
      ∃ rest : List Char, rest.length ≤ WHATSAPP_MESSAGE_MAX_LENGTH ∧
        (c = rest ∨ ∃ i N : Nat, c = partMarker i N ++ rest)) := by
  refine ⟨fun msg M c hc => splitMessage_chunks_le msg M c hc, ?_⟩
  intro msg c hc
  simp only [splitMessageWithIndicators] at hc
  by_cases hlen : (splitMessage msg WHATSAPP_MESSAGE_MAX_LENGTH).length ≤ 1
  · rw [if_pos hlen] at hc
    exact ⟨c, splitMessage_chunks_le _ _ c hc, Or.inl rfl⟩
  · rw [if_neg hlen] at hc
    obtain ⟨i, hi, heq⟩ := List.exists_of_mem_mapIdx hc
    refine ⟨(splitMessage msg WHATSAPP_MESSAGE_MAX_LENGTH)[i], ?_, Or.inr ⟨i + 1, _, heq.symm⟩⟩
    exact splitMessage_chunks_le _ _ _ (List.getElem_mem hi)

/-- Witness for C4 (amended) at concrete inputs: the piece "a" of splitting
"ab" at maxLength 1 is within bound, and the single-chunk output for "hi"
decomposes with no marker. -/
theorem chunk_length_bound_and_marker_witness :
    ((['a'] : List Char) ∈ splitMessage (some ['a', 'b']) 1 ∧
      (['a'] : List Char).length ≤ 1) ∧
    (∃ rest : List Char, rest.length ≤ WHATSAPP_MESSAGE_MAX_LENGTH ∧
      ((['h', 'i'] : List Char) = rest ∨
        ∃ i N : Nat, (['h', 'i'] : List Char) = partMarker i N ++ rest)) :=
  ⟨⟨by decide, chunk_length_bound_and_marker.1 (some ['a', 'b']) 1 ['a'] (by decide)⟩,
   chunk_length_bound_and_marker.2 (some ['h', 'i']) ['h', 'i'] (by decide)⟩

theorem findSentenceMatch_none_of_no_trigger (l : List Char)
    (h : ∀ c ∈ l, c ≠ '.' ∧ c ≠ '!' ∧ c ≠ '?' ∧ c ≠ '\n') :
    findSentenceMatch l = none := by
  induction l with
  | nil => rfl
  | cons c rest ih =>
    have hc := h c (by simp)
    have hmat : sentenceMatchAt (c :: rest) = none := by
      simp only [sentenceMatchAt]
      rw [if_neg, if_neg]
      · rintro ⟨hnl, -⟩
        exact hc.2.2.2 hnl
      · rintro ⟨hor, -⟩
        rcases hor with h1 | h1 | h1
        · exact hc.1 h1
        · exact hc.2.1 h1
        · exact hc.2.2.1 h1
    simp only [findSentenceMatch, hmat]
    rw [ih (fun d hd => h d (by simp [hd]))]
    rfl

theorem lastIndexOfNewline_of_no_newline (l : List Char)
    (h : ∀ c ∈ l, c ≠ '\n') : lastIndexOfNewline l = -1 := by
  induction l with
  | nil => rfl
  | cons c rest ih =>
    have hr := ih (fun d hd => h d (by simp [hd]))
    simp only [lastIndexOfNewline, hr]
    rw [if_neg (by omega), if_neg (h c (by simp))]

theorem dropWhile_eq_self_of_no_ws (p : Char → Bool) (l : List Char)
    (h : ∀ c ∈ l, p c = false) : l.dropWhile p = l := by
  cases l with
  | nil => rfl
  | cons c rest =>
    rw [List.dropWhile_cons_of_neg]
    simp [h c (by simp)]

theorem jsTrim_eq_self_of_no_ws (l : List Char)
    (h : ∀ c ∈ l, isJsWhitespace c = false) : jsTrim l = l := by
  unfold jsTrim
  rw [dropWhile_eq_self_of_no_ws _ _ h,
    dropWhile_eq_self_of_no_ws _ _ (fun c hc => h c (List.mem_reverse.mp hc)),
    List.reverse_reverse]

theorem dropWhile_ws_replicate_space (n : Nat) (l : List Char) :
    List.dropWhile isJsWhitespace (List.replicate n ' ' ++ l) =
      List.dropWhile isJsWhitespace l := by
  induction n with
  | zero => simp
  | succ n ih =>
    rw [List.replicate_succ, List.cons_append,
      List.dropWhile_cons_of_pos (by decide)]
    exact ih

/-- The loop body: nothing done on an empty remainder. -/
theorem splitLoop_done (M fuel : Nat) (acc : List (List Char)) (hf : fuel ≠ 0) :
    splitLoop M fuel [] acc = acc.reverse := by
  obtain ⟨f, rfl⟩ := Nat.exists_eq_succ_of_ne_zero hf
  simp [splitLoop]

/-- The loop body when the remainder fits: push it and stop. -/
theorem splitLoop_last (M fuel : Nat) (remaining : List Char)
    (acc : List (List Char)) (hf : fuel ≠ 0) (h0 : remaining.length ≠ 0)
    (hle : remaining.length ≤ M) :
    splitLoop M fuel remaining acc = (remaining :: acc).reverse := by
  obtain ⟨f, rfl⟩ := Nat.exists_eq_succ_of_ne_zero hf
  simp only [splitLoop, if_neg h0, if_pos hle]

/-- The loop body on a long remainder: trim off one chunk and continue. -/
theorem splitLoop_step (M fuel : Nat) (remaining : List Char)
    (acc : List (List Char)) (hf : fuel ≠ 0) (h0 : remaining.length ≠ 0)
    (hgt : ¬ remaining.length ≤ M) :
    splitLoop M fuel remaining acc =
      splitLoop M (fuel - 1) (jsTrim (remaining.drop (splitIndexFor M remaining)))
        (jsTrim (remaining.take (splitIndexFor M remaining)) :: acc) := by
  obtain ⟨f, rfl⟩ := Nat.exists_eq_succ_of_ne_zero hf
  simp only [splitLoop, if_neg h0, if_neg hgt, Nat.succ_sub_one]

/-- On 8192 copies of 'a' the split index is exactly 4096: the lookback
window has no sentence boundary and the chunk has no line break. -/
theorem splitIndexFor_replicate_a :
    splitIndexFor 4096 (List.replicate 8192 'a') = 4096 := by
  unfold splitIndexFor
  dsimp only
  rw [List.take_replicate]
  norm_num
  rw [findSentenceMatch_none_of_no_trigger _ (fun c hc => by
    rw [List.eq_of_mem_replicate hc]
    refine ⟨by decide, by decide, by decide, by decide⟩)]
  dsimp only
  rw [lastIndexOfNewline_of_no_newline _ (fun c hc => by
    rw [List.eq_of_mem_replicate hc]
    decide)]
  norm_num

theorem splitMessage_replicate_a :
    splitMessage (some (List.replicate 8192 'a')) 4096 =
      [List.replicate 4096 'a', List.replicate 4096 'a'] := by
  have hnws : ∀ n : Nat, ∀ c ∈ List.replicate n 'a', isJsWhitespace c = false :=
    fun n c hc => by rw [List.eq_of_mem_replicate hc]; decide
  simp only [splitMessage, List.length_replicate]
  rw [if_neg (by norm_num), if_neg (by norm_num)]
  rw [splitLoop_step _ _ _ _ (by norm_num)
    (by norm_num [List.length_replicate])
    (by norm_num [List.length_replicate])]
  rw [splitIndexFor_replicate_a, List.take_replicate, List.drop_replicate]
  norm_num
  rw [jsTrim_eq_self_of_no_ws _ (hnws 4096)]
  rw [splitLoop_last _ _ _ _ (by norm_num)
    (by norm_num [List.length_replicate])
    (by norm_num [List.length_replicate])]
  rfl

/-- C4 counterexample: on 8192 copies of 'a' the first outbound chunk is
`[Part 1/2]` plus a 4096-character piece — 4108 characters, exceeding the
provider limit 4096, so the claim that every marked chunk is at most 4096
long is false. -/
theorem indicator_chunk_over_limit_cex :
    4096 <
      ((splitMessageWithIndicators (some (List.replicate 8192 'a'))).headD []).length := by
  simp only [splitMessageWithIndicators, WHATSAPP_MESSAGE_MAX_LENGTH,
    splitMessage_replicate_a]
  norm_num [List.mapIdx_cons, partMarker]
  have h1 : (Nat.toDigits 10 1).length = 1 := by decide
  have h2 : (Nat.toDigits 10 2).length = 1 := by decide
  omega

theorem splitIndexFor_mostly_space :
    splitIndexFor 4096 ('a' :: List.replicate 4100 ' ') = 4096 := by
  unfold splitIndexFor
  dsimp only
  norm_num
  rw [findSentenceMatch_none_of_no_trigger _ (fun c hc => by
    rw [List.eq_of_mem_replicate hc]
    refine ⟨by decide, by decide, by decide, by decide⟩)]
  dsimp only
  rw [lastIndexOfNewline_of_no_newline _ (fun c hc => by
    rcases List.mem_cons.mp hc with rfl | hc
    · decide
    · rw [List.eq_of_mem_replicate hc]; decide)]
  norm_num

theorem jsTrim_a_spaces : jsTrim ('a' :: List.replicate 4095 ' ') = ['a'] := by
  unfold jsTrim
  rw [List.dropWhile_cons_of_neg (by decide)]
  rw [List.reverse_cons, List.reverse_replicate]
  rw [dropWhile_ws_replicate_space]
  rw [List.dropWhile_cons_of_neg (by decide)]
  rfl

theorem jsTrim_spaces (n : Nat) : jsTrim (List.replicate n ' ') = [] := by
  unfold jsTrim
  rw [show List.replicate n ' ' = List.replicate n ' ' ++ [] by simp,
    dropWhile_ws_replicate_space]
  rfl

theorem splitMessage_mostly_space :
    splitMessage (some ('a' :: List.replicate 4100 ' ')) 4096 = [['a']] := by
  simp only [splitMessage, List.length_cons, List.length_replicate]
  rw [if_neg (by norm_num), if_neg (by norm_num)]
  rw [splitLoop_step _ _ _ _ (by norm_num)
    (by simp only [List.length_cons, List.length_replicate]; norm_num)
    (by simp only [List.length_cons, List.length_replicate]; norm_num)]
  rw [splitIndexFor_mostly_space]
  have hdrop : ('a' :: List.replicate 4100 ' ').drop 4096 = List.replicate 5 ' ' := by
    rw [show (4096 : Nat) = 4095 + 1 from rfl, List.drop_succ_cons, List.drop_replicate]
  have htake : ('a' :: List.replicate 4100 ' ').take 4096 = 'a' :: List.replicate 4095 ' ' := by
    rw [show (4096 : Nat) = 4095 + 1 from rfl, List.take_succ_cons, List.take_replicate]
    rw [show min 4095 4100 = 4095 from by norm_num]
  rw [hdrop, htake, jsTrim_a_spaces, jsTrim_spaces]
  rw [splitLoop_done _ _ _ (by norm_num)]
  rfl

/-- C8 counterexample: on the 4101-character string "a" followed by 4100
spaces, the chunker returns the single chunk "a": boundary whitespace
trimming drops 4100 of 4101 characters, so the concatenation retains well
under 95% of the original character count. -/
theorem chunk_roundtrip_95_cex :
    splitMessage (some ('a' :: List.replicate 4100 ' ')) 4096 = [['a']] ∧
    100 * (((splitMessage (some ('a' :: List.replicate 4100 ' ')) 4096).map
        List.length).sum) <
      95 * ('a' :: List.replicate 4100 ' ').length := by
  refine ⟨splitMessage_mostly_space, ?_⟩
  rw [splitMessage_mostly_space]
  simp only [List.map_cons, List.map_nil, List.length_cons, List.length_nil,
    List.length_replicate, List.sum_cons, List.sum_nil]
  norm_num

/-- `WsInterleaving msg chunks`: `msg` is exactly the chunks in order,
interleaved with (possibly empty) runs of JS whitespace before, between and
after them.  Concatenating the chunks therefore reconstructs `msg` modulo
whitespace dropped at chunk boundaries, and every dropped character is
whitespace. -/
inductive WsInterleaving : List Char → List (List Char) → Prop where
  | nil (s : List Char) (hs : ∀ c ∈ s, isJsWhitespace c = true) : WsInterleaving s []
  | cons (s c rest : List Char) (chunks : List (List Char))
      (hs : ∀ x ∈ s, isJsWhitespace x = true)
      (hrest : WsInterleaving rest chunks) :
      WsInterleaving (s ++ c ++ rest) (c :: chunks)

theorem WsInterleaving.ws_prefix (p m : List Char) (cs : List (List Char))
    (hp : ∀ x ∈ p, isJsWhitespace x = true) (h : WsInterleaving m cs) :
    WsInterleaving (p ++ m) cs := by
  cases h with
  | nil =>
    rename_i hs
    refine .nil (p ++ m) ?_
    intro c hc
    rcases List.mem_append.mp hc with h | h
    · exact hp c h
    · exact hs c h
  | cons s c rest chunks hs hrest =>
    have hassoc : p ++ (s ++ c ++ rest) = (p ++ s) ++ c ++ rest := by
      simp [List.append_assoc]
    rw [hassoc]
    refine .cons (p ++ s) c rest chunks ?_ hrest
    intro x hx
    rcases List.mem_append.mp hx with h | h
    · exact hp x h
    · exact hs x h

theorem WsInterleaving.ws_suffix (m q : List Char) (cs : List (List Char))
    (hq : ∀ x ∈ q, isJsWhitespace x = true) (h : WsInterleaving m cs) :
    WsInterleaving (m ++ q) cs := by
  induction h with
  | nil s hs =>
    refine .nil (s ++ q) ?_
    intro c hc
    rcases List.mem_append.mp hc with h | h
    · exact hs c h
    · exact hq c h
  | cons s c rest chunks hs hrest ih =>
    have hassoc : (s ++ c ++ rest) ++ q = s ++ c ++ (rest ++ q) := by
      simp [List.append_assoc]
    rw [hassoc]
    exact .cons s c (rest ++ q) chunks hs ih

/-- `trim` splits a string into whitespace, its trimmed core and
whitespace. -/
theorem jsTrim_decomposition (l : List Char) :
    ∃ p q : List Char, l = p ++ jsTrim l ++ q ∧
      (∀ c ∈ p, isJsWhitespace c = true) ∧ (∀ c ∈ q, isJsWhitespace c = true) := by
  refine ⟨l.takeWhile isJsWhitespace,
    ((l.dropWhile isJsWhitespace).reverse.takeWhile isJsWhitespace).reverse, ?_, ?_, ?_⟩
  · have h3 : l.dropWhile isJsWhitespace = jsTrim l ++
        ((l.dropWhile isJsWhitespace).reverse.takeWhile isJsWhitespace).reverse := by
      unfold jsTrim
      conv_lhs => rw [← List.reverse_reverse (l.dropWhile isJsWhitespace)]
      conv_lhs =>
        rw [← List.takeWhile_append_dropWhile isJsWhitespace
          (l.dropWhile isJsWhitespace).reverse]
      rw [List.reverse_append]
    conv_lhs => rw [← List.takeWhile_append_dropWhile isJsWhitespace l, h3]
    simp [List.append_assoc]
  · intro c hc
    exact List.mem_takeWhile_imp hc
  · intro c hc
    exact List.mem_takeWhile_imp (List.mem_reverse.mp hc)

/-- The accumulator of `splitLoop` only prepends (reversed) to the result. -/
theorem splitLoop_acc (M : Nat) :
    ∀ (fuel : Nat) (remaining : List Char) (acc : List (List Char)),
      splitLoop M fuel remaining acc = acc.reverse ++ splitLoop M fuel remaining [] := by
  intro fuel
  induction fuel with
  | zero => intro remaining acc; simp [splitLoop]
  | succ fuel ih =>
    intro remaining acc
    by_cases h0 : remaining.length = 0
    · simp [splitLoop, h0]
    · by_cases hle : remaining.length ≤ M
      · simp [splitLoop, h0, hle]
      · simp only [splitLoop, if_neg h0, if_neg hle]
        rw [ih (jsTrim (remaining.drop (splitIndexFor M remaining)))
          (jsTrim (remaining.take (splitIndexFor M remaining)) :: acc),
          ih (jsTrim (remaining.drop (splitIndexFor M remaining)))
          [jsTrim (remaining.take (splitIndexFor M remaining))]]
        simp

/-- Loop invariant: with enough fuel and a positive `maxLength`, the
remaining text is the produced chunks interleaved with boundary
whitespace. -/
theorem splitLoop_interleaving (M : Nat) (hM : 1 ≤ M) :
    ∀ (fuel : Nat) (remaining : List Char), remaining.length ≤ fuel →
      WsInterleaving remaining (splitLoop M fuel remaining []) := by
  intro fuel
  induction fuel with
  | zero =>
    intro remaining hlen
    have hnil : remaining = [] := List.length_eq_zero.mp (by omega)
    subst hnil
    simp only [splitLoop, List.reverse_nil]
    exact .nil [] (by simp)
  | succ fuel ih =>
    intro remaining hlen
    by_cases h0 : remaining.length = 0
    · have hnil : remaining = [] := List.length_eq_zero.mp h0
      subst hnil
      simp only [splitLoop, List.length_nil, if_pos rfl, List.reverse_nil]
      exact .nil [] (by simp)
    · by_cases hle : remaining.length ≤ M
      · rw [splitLoop_last M (fuel + 1) remaining [] (by omega) h0 hle]
        have h := WsInterleaving.cons [] remaining [] [] (by simp)
          (.nil [] (by simp))
        simpa using h
      · rw [splitLoop_step M (fuel + 1) remaining [] (by omega) h0 hle,
          Nat.add_sub_cancel]
        rw [splitLoop_acc M fuel (jsTrim (remaining.drop (splitIndexFor M remaining)))
          [jsTrim (remaining.take (splitIndexFor M remaining))]]
        set si := splitIndexFor M remaining with hsi_def
        have hsi := splitIndexFor_bounds M remaining (by omega)
        have hsi1 : 1 ≤ si := hsi.1 hM
        have hlen2 : (jsTrim (remaining.drop si)).length ≤ fuel := by
          have h1 := jsTrim_length_le (remaining.drop si)
          rw [List.length_drop] at h1
          omega
        have hrec := ih (jsTrim (remaining.drop si)) hlen2
        set t1 := jsTrim (remaining.take si) with ht1
        set t2 := jsTrim (remaining.drop si) with ht2
        obtain ⟨p1, q1, he1, hp1, hq1⟩ := jsTrim_decomposition (remaining.take si)
        obtain ⟨p2, q2, he2, hp2, hq2⟩ := jsTrim_decomposition (remaining.drop si)
        rw [← ht1] at he1
        rw [← ht2] at he2
        have h3 := WsInterleaving.ws_suffix t2 q2 _ hq2 hrec
        have h4 := WsInterleaving.ws_prefix (q1 ++ p2) (t2 ++ q2) _
          (by
            intro x hx
            rcases List.mem_append.mp hx with h | h
            · exact hq1 x h
            · exact hp2 x h) h3
        have h5 := WsInterleaving.cons p1 t1 ((q1 ++ p2) ++ (t2 ++ q2)) _ hp1 h4
        have hre : remaining = p1 ++ t1 ++ ((q1 ++ p2) ++ (t2 ++ q2)) := by
          conv_lhs => rw [← List.take_append_drop si remaining]
          rw [he1, he2]
          simp [List.append_assoc]
        rw [hre]
        exact h5

/-- C8 (amended): for every string and every `maxLength ≥ 1`, the original
string is exactly the `splitMessage` chunks in order, interleaved with runs
of whitespace dropped at the chunk boundaries — so concatenating the chunks
(markers are only added afterwards by `splitMessageWithIndicators`)
reconstructs the original modulo boundary whitespace trimming, every dropped
character being whitespace.  No fixed retention percentage such as 95%
holds: the dropped boundary whitespace runs can be arbitrarily long. -/
theorem chunk_reconstruction_modulo_ws (msg : List Char) (M : Nat) (hM : 1 ≤ M) :
    WsInterleaving msg (splitMessage (some msg) M) := by
  by_cases h0 : msg.length = 0
  · have hnil : msg = [] := List.length_eq_zero.mp h0
    subst hnil
    simp only [splitMessage, List.length_nil, if_pos rfl]
    exact .nil [] (by simp)
  · simp only [splitMessage, if_neg h0]
    by_cases hle : msg.length ≤ M
    · rw [if_pos hle]
      have h := WsInterleaving.cons [] msg [] [] (by simp) (.nil [] (by simp))
      simpa using h
    · rw [if_neg hle]
      exact splitLoop_interleaving M hM msg.length msg le_rfl

/-- Witness for C8 (amended) at a concrete input: "hi" at the provider
maximum is one chunk and interleaves trivially. -/
theorem chunk_reconstruction_modulo_ws_witness :
    1 ≤ (4096 : Nat) ∧ WsInterleaving ['h', 'i'] [['h', 'i']] := by
  refine ⟨by decide, ?_⟩
  have h := chunk_reconstruction_modulo_ws ['h', 'i'] 4096 (by decide)
  rw [show splitMessage (some ['h', 'i']) 4096 = [['h', 'i']] from by decide] at h
  exact h

end WhatsappService
